import Mathlib

/-!
Verification of the Prometheus text serializer
(`opentelemetry-prometheus-text-exporter`, `src/serialize.rs`).

The Rust code is shallowly embedded: strings are Lean `String`s (processed
through their `.data` character lists, mirroring Rust's `chars()` iteration),
`u64` values are `Nat` (with `% 2 ^ 64` where wrapping arithmetic occurs),
`i64` values are `Int`, and the `f64` sample values / histogram bucket bounds
are abstract type parameters together with their rendering functions, since
the serializer never computes with them - it only forwards them to `Display`.
The output sink (`std::io::Write`) never fails in the model, so each
`serialize_*` function returns the `String` it appends; the Rust functions'
only error source is the sink itself.
-/

namespace PromText

set_option maxRecDepth 4096

/-! ## Character classes used by `sanitize_name` (serialize.rs lines 119-178)

Rust's `is_ascii_alphabetic` / `is_ascii_alphanumeric` coincide with Lean's
`Char.isAlpha` / `Char.isAlphanum` (both are ASCII-only). -/

/-- First character must be `[a-zA-Z_:]` (serialize.rs line 124). -/
def validFirst (c : Char) : Bool := c.isAlpha || c == '_' || c == ':'

/-- Subsequent characters must be `[a-zA-Z0-9_:]` (serialize.rs line 165). -/
def validRest (c : Char) : Bool := c.isAlphanum || c == '_' || c == ':'

/-- The `chars.any` closure of `sanitize_name`'s validity scan
(serialize.rs lines 129-140): returns `true` on the first violation,
threading the `prev_underscore` flag. -/
def restInvalid : Bool → List Char → Bool
  | _, [] => false
  | prevUnderscore, c :: cs =>
    if c == '_' then
      if prevUnderscore then true else restInvalid true cs
    else
      if !(c.isAlphanum || c == ':') then true else restInvalid false cs

/-- `needs_sanitization` of `sanitize_name` (serialize.rs lines 121-144).
Note the source initialises `prev_underscore` to `false` even when the first
character (already consumed by `chars.next()`) is an underscore. -/
def needsSanitization (l : List Char) : Bool :=
  match l with
  | [] => false
  | first :: rest =>
    if !(first.isAlpha || first == '_' || first == ':') then true
    else restInvalid false rest

/-- Slow-path mapping of the first character (serialize.rs lines 155-161). -/
def sanitizeFirstChar (c : Char) : Char :=
  if c.isAlpha || c == '_' || c == ':' then c else '_'

/-- Slow-path mapping of subsequent characters (serialize.rs lines 164-170). -/
def sanitizeRestChar (c : Char) : Char :=
  if c.isAlphanum || c == '_' || c == ':' then c else '_'

/-- The slow-path rebuild before underscore collapsing
(serialize.rs lines 150-170). -/
def sanitizeRaw : List Char → List Char
  | [] => []
  | c :: cs => sanitizeFirstChar c :: cs.map sanitizeRestChar

/-- `result.contains("__")` (serialize.rs line 173). -/
def containsDU : List Char → Bool
  | '_' :: '_' :: _ => true
  | _ :: rest => containsDU rest
  | [] => false

/-- One round of `result.replace("__", "_")` (serialize.rs line 174):
non-overlapping matches replaced left to right. -/
def replaceDU : List Char → List Char
  | [] => []
  | [c] => [c]
  | a :: b :: rest =>
    if a = '_' ∧ b = '_' then '_' :: replaceDU rest
    else a :: replaceDU (b :: rest)

/-- The `while result.contains("__")` loop (serialize.rs lines 173-175),
run with fuel: every iteration on a string containing `__` strictly shortens
it, so `l.length` iterations always reach the fixed point. -/
def collapseAux : Nat → List Char → List Char
  | 0, l => l
  | fuel + 1, l => if containsDU l then collapseAux fuel (replaceDU l) else l

def collapseUnderscores (l : List Char) : List Char := collapseAux l.length l

/-- `sanitize_name` (serialize.rs lines 119-178). -/
def sanitize_name (s : String) : String :=
  if needsSanitization s.data then
    ⟨collapseUnderscores (sanitizeRaw s.data)⟩
  else s

/-! ## `convert_unit` (serialize.rs lines 198-252) -/

/-- Rust's `char::is_whitespace`: the Unicode `White_Space` property, a
fixed list of code points — U+0009..U+000D, U+0020, U+0085, U+00A0, U+1680,
U+2000..U+200A, U+2028, U+2029, U+202F, U+205F, U+3000. -/
def isRustWhitespace (c : Char) : Bool :=
  (0x09 ≤ c.toNat && c.toNat ≤ 0x0D) || c.toNat == 0x20 || c.toNat == 0x85
    || c.toNat == 0xA0 || c.toNat == 0x1680
    || (0x2000 ≤ c.toNat && c.toNat ≤ 0x200A)
    || c.toNat == 0x2028 || c.toNat == 0x2029 || c.toNat == 0x202F
    || c.toNat == 0x205F || c.toNat == 0x3000

/-- `str::trim`: leading and trailing `char::is_whitespace` characters
removed. -/
def trimChars (l : List Char) : List Char :=
  ((l.dropWhile isRustWhitespace).reverse.dropWhile isRustWhitespace).reverse

def trimStr (s : String) : String := ⟨trimChars s.data⟩

/-- `str::find(char)` as a character index (byte indices in the source always
sit on the boundaries of the 1-byte characters `{` and `}`, so character
indices describe the same slicing). -/
def findCharIdx (c : Char) : List Char → Option Nat
  | [] => none
  | x :: xs =>
    if x == c then some 0
    else match findCharIdx c xs with
      | some i => some (i + 1)
      | none => none

/-- `final_unit.replace('/', "_per_")` (serialize.rs line 230). -/
def replaceSlash (l : List Char) : List Char :=
  l.foldr (fun c acc => if c == '/' then '_' :: 'p' :: 'e' :: 'r' :: '_' :: acc else c :: acc) []

/-- Bracket-span removal of `convert_unit` (serialize.rs lines 206-219):
take the text before the first `{`, append whatever follows the first `}`
(when anything does), and trim the concatenation. Without a closing `}` the
trimmed input is kept. -/
def withoutBrackets (trimmed : List Char) : List Char :=
  match findCharIdx '{' trimmed with
  | some start =>
    match findCharIdx '}' trimmed with
    | some e =>
      trimChars (trimmed.take start ++
        (if e + 1 < trimmed.length then trimmed.drop (e + 1) else []))
    | none => trimmed
  | none => trimmed

/-- `convert_unit` (serialize.rs lines 198-252). In the source's default
branch both `Cow` alternatives hold the same text (`final_unit`), so the
model returns it directly. -/
def convert_unit (unit : String) : String :=
  let trimmed := trimChars unit.data
  if trimmed.isEmpty then "" else
  let final_unit : List Char := withoutBrackets trimmed
  if final_unit = "1".data then "ratio"
  else if final_unit.contains '/' then ⟨replaceSlash final_unit⟩
  else if final_unit = "ms".data then "milliseconds"
  else if final_unit = "s".data then "seconds"
  else if final_unit = "m".data then "meters"
  else if final_unit = "kg".data then "kilograms"
  else if final_unit = "g".data then "grams"
  else if final_unit = "b".data ∨ final_unit = "bytes".data then "bytes"
  else if final_unit = "%".data then "percent"
  else ⟨final_unit⟩

/-! ## `add_unit_suffix` (serialize.rs lines 266-272) -/

/-- `str::ends_with`. -/
def endsWithStr (s suf : String) : Bool := suf.data.isSuffixOf s.data

/-- `add_unit_suffix` (serialize.rs lines 266-272). -/
def add_unit_suffix (name unit : String) : String :=
  if unit = "" || endsWithStr name unit then name
  else name ++ "_" ++ unit

/-! ## `escape_label_value` (serialize.rs lines 333-335)

The source formats with `format!("{:?}")`, i.e. Rust's `Debug` for `str`:
the value is wrapped in double quotes and each character escaped by
`char::escape_debug`. The model covers the escapes for `"`, `\`, `\n`,
`\t`, `\r` and `\0`; other characters pass through unchanged (Rust would
additionally `\u{...}`-escape the remaining non-printable code points,
which no claim and no call site depends on). -/

/-- Sequential emission to the sink: the concatenation of the chunks a loop
writes, in order. -/
def concatAll : List String → String
  | [] => ""
  | x :: xs => x ++ concatAll xs

def escapeChar (c : Char) : String :=
  if c == '"' then "\\\""
  else if c == '\\' then "\\\\"
  else if c == '\n' then "\\n"
  else if c == '\t' then "\\t"
  else if c == '\r' then "\\r"
  else if c == '\x00' then "\\0"
  else String.singleton c

def escape_label_value (s : String) : String :=
  "\"" ++ concatAll (s.data.map escapeChar) ++ "\""

/-! ## Decimal rendering of `u64` / `i64` (`Numeric::serialize`,
serialize.rs lines 89-99): Rust's `Display` for integers. -/

def decDigit (n : Nat) : Char :=
  match n with
  | 0 => '0' | 1 => '1' | 2 => '2' | 3 => '3' | 4 => '4'
  | 5 => '5' | 6 => '6' | 7 => '7' | 8 => '8' | _ => '9'

def natDecimalAux : Nat → Nat → List Char
  | 0, _ => []
  | fuel + 1, n => if n < 10 then [decDigit n] else natDecimalAux fuel (n / 10) ++ [decDigit (n % 10)]

def natDecimal (n : Nat) : String := ⟨natDecimalAux (n + 1) n⟩

def intDecimal (i : Int) : String :=
  if i < 0 then "-" ++ natDecimal i.natAbs else natDecimal i.natAbs

/-! ## Data model (opentelemetry_sdk metric data, as consumed by the
serializer). Attributes model `KeyValue`: the key string together with the
value already stringified (`format!("{}", attr.value)`, the only way the
serializer ever looks at a value). -/

inductive Temporality where
  | delta
  | cumulative
  | lowMemory
deriving BEq, DecidableEq, Repr

structure NumberDataPoint (V : Type) where
  attributes : List (String × String)
  value : V
deriving Repr

structure GaugeData (V : Type) where
  data_points : List (NumberDataPoint V)
deriving Repr

structure SumData (V : Type) where
  temporality : Temporality
  is_monotonic : Bool
  data_points : List (NumberDataPoint V)
deriving Repr

/-- Histogram data point; only the fields the serializer reads.
`count` and `bucket_counts` are `u64`, modelled as `Nat`; `bounds` are the
explicit `f64` boundaries, kept as an abstract type `B`. -/
structure HistogramPoint (V B : Type) where
  attributes : List (String × String)
  count : Nat
  sum : V
  bounds : List B
  bucket_counts : List Nat
deriving Repr

structure HistogramData (V B : Type) where
  data_points : List (HistogramPoint V B)
deriving Repr

/-- `MetricData<T>`: the exponential-histogram payload is never inspected by
the serializer (it is only matched to be skipped), so it carries no data. -/
inductive MetricData (V B : Type) where
  | gauge (g : GaugeData V)
  | sum (s : SumData V)
  | histogram (h : HistogramData V B)
  | exponentialHistogram
deriving Repr

/-- `AggregatedMetrics`: the numeric flavour. `f64` values stay abstract
(type `F`, rendered by a function `F → String` mirroring `Numeric::serialize`
for floats); `u64` is `Nat`, `i64` is `Int`. -/
inductive AggregatedMetrics (F B : Type) where
  | f64 (d : MetricData F B)
  | u64 (d : MetricData Nat B)
  | i64 (d : MetricData Int B)
deriving Repr

structure Metric (F B : Type) where
  name : String
  description : String
  unit : String
  data : AggregatedMetrics F B
deriving Repr

/-- Instrumentation scope of a `ScopeMetrics` group. -/
structure Scope where
  name : String
  version : Option String
  schema_url : Option String
  attributes : List (String × String)
deriving Repr

/-! ## Label writing -/

/-- The `HashMap<String, Vec<String>>` of `write_attributes_as_labels`,
modelled as an association list keyed by sanitized name. Each key's bucket
accumulates values in attribute order, exactly like
`label_map.entry(k).or_default().push(v)`. The model iterates entries in
first-insertion order; the source's `HashMap` iteration order is
unspecified, and no verified claim depends on the relative order of distinct
label names. -/
def insertGroup : List (String × List String) → String → String → List (String × List String)
  | [], k, v => [(k, [v])]
  | (k', vs) :: rest, k, v =>
    if k' = k then (k', vs ++ [v]) :: rest else (k', vs) :: insertGroup rest k v

/-- The grouping loop of `write_attributes_as_labels`
(serialize.rs lines 296-303). -/
def groupBySanitized (attrs : List (String × String)) : List (String × List String) :=
  attrs.foldl (fun m kv => insertGroup m (sanitize_name kv.1) kv.2) []

/-- Lexicographic comparison on character lists, the order of Rust's
`str`/`String` `Ord` (byte-wise comparison of UTF-8 agrees with code-point
lexicographic order). -/
def charListLe : List Char → List Char → Bool
  | [], _ => true
  | _ :: _, [] => false
  | a :: as_, b :: bs =>
    if a.toNat < b.toNat then true
    else if b.toNat < a.toNat then false
    else charListLe as_ bs

def strLeB (a b : String) : Bool := charListLe a.data b.data

/-- Insertion into a sorted list, for `values.sort()`
(serialize.rs line 322); equal elements are equal strings, so stability
is irrelevant. -/
def insertSorted (x : String) : List String → List String
  | [] => [x]
  | y :: ys => if strLeB x y then x :: y :: ys else y :: insertSorted x ys

def sortStrings (l : List String) : List String := l.foldr insertSorted []

/-- `values.join(";")` (and any other separator-join in the source). -/
def joinSep (sep : String) : List String → String
  | [] => ""
  | [x] => x
  | x :: xs => x ++ sep ++ joinSep sep xs

/-- The value text written for one label
(serialize.rs lines 317-325): a single value is escaped as-is; colliding
values are sorted, joined with `;`, then escaped. -/
def labelValueText (vs : List String) : String :=
  if vs.length = 1 then escape_label_value (vs.headD "")
  else escape_label_value (joinSep ";" (sortStrings vs))

/-- One `key=value` label (serialize.rs lines 311-326). -/
def renderLabel (e : String × List String) : String :=
  e.1 ++ "=" ++ labelValueText e.2

/-- `write_attributes_as_labels` (serialize.rs lines 292-328): the written
text together with the returned `bool`. -/
def write_attributes_as_labels (attrs : List (String × String)) : String × Bool :=
  if (groupBySanitized attrs).isEmpty then ("", false)
  else (joinSep "," ((groupBySanitized attrs).map renderLabel), true)

/-- The scope-attribute loop of `write_scope_labels`
(serialize.rs lines 405-417): attributes keyed `name`, `version` or
`schema_url` are skipped. -/
def scopeAttrLabels : List (String × String) → String
  | [] => ""
  | (k, v) :: rest =>
    (if k = "name" ∨ k = "version" ∨ k = "schema_url" then ""
     else ",otel_scope_" ++ sanitize_name k ++ "=" ++ escape_label_value v)
      ++ scopeAttrLabels rest

/-- `write_scope_labels` (serialize.rs lines 367-420). -/
def write_scope_labels (s : Scope) : String :=
  (if s.name = "" then "" else ",otel_scope_name=" ++ escape_label_value s.name)
    ++ (match s.version with
        | some v => if v = "" then "" else ",otel_scope_version=" ++ escape_label_value v
        | none => "")
    ++ (match s.schema_url with
        | some u => if u = "" then "" else ",otel_scope_schema_url=" ++ escape_label_value u
        | none => "")
    ++ scopeAttrLabels s.attributes

/-! ## Metric-level writers -/

def hasScopeName (s : Scope) : Bool := !(s.name = "")
def hasScopeVersion (s : Scope) : Bool := (s.version.map (fun v => !(v = ""))).getD false
def hasScopeSchema (s : Scope) : Bool := (s.schema_url.map (fun v => !(v = ""))).getD false
def hasScopeAttrs (s : Scope) : Bool := !s.attributes.isEmpty

/-- `write_metric_labels` (serialize.rs lines 599-634). -/
def write_metric_labels (attrs : List (String × String)) (s : Scope)
    (has_additional_labels : Bool) : String :=
  if !attrs.isEmpty || hasScopeName s || hasScopeVersion s
      || hasScopeSchema s || hasScopeAttrs s || has_additional_labels then
    "\x7b" ++ (write_attributes_as_labels attrs).1
      ++ (if (write_attributes_as_labels attrs).2 || hasScopeName s || hasScopeVersion s
            || hasScopeSchema s || hasScopeAttrs s
          then write_scope_labels s else "")
      ++ "\x7d"
  else ""

/-- `write_bucket_labels` (serialize.rs lines 637-660). -/
def write_bucket_labels (attrs : List (String × String)) (s : Scope)
    (le_value : String) : String :=
  "\x7b" ++ (write_attributes_as_labels attrs).1
    ++ (if (write_attributes_as_labels attrs).2 then ",le=" ++ escape_label_value le_value
        else "le=" ++ escape_label_value le_value)
    ++ write_scope_labels s ++ "\x7d"

/-- `write_type_comment` (serialize.rs lines 338-344). -/
def write_type_comment (name metric_type : String) : String :=
  "# TYPE " ++ name ++ " " ++ metric_type ++ "\n"

/-- `write_help_comment` (serialize.rs lines 347-356): the description is
written verbatim. -/
def write_help_comment (name description : String) : String :=
  if !(description = "") then "# HELP " ++ name ++ " " ++ description ++ "\n"
  else ""

/-- `write_unit_comment` (serialize.rs lines 359-364). -/
def write_unit_comment (name unit : String) : String :=
  if !(unit = "") then "# UNIT " ++ name ++ " " ++ unit ++ "\n" else ""

/-- `get_prometheus_type_and_is_monotonic` (serialize.rs lines 478-515). -/
def get_prometheus_type_and_is_monotonic {F B : Type} :
    AggregatedMetrics F B → Option (String × Bool)
  | .f64 (.gauge _) | .u64 (.gauge _) | .i64 (.gauge _) => some ("gauge", false)
  | .f64 (.sum s) =>
    if s.temporality == .cumulative && s.is_monotonic then some ("counter", true)
    else some ("gauge", false)
  | .u64 (.sum s) =>
    if s.temporality == .cumulative && s.is_monotonic then some ("counter", true)
    else some ("gauge", false)
  | .i64 (.sum s) =>
    if s.temporality == .cumulative && s.is_monotonic then some ("counter", true)
    else some ("gauge", false)
  | .f64 (.histogram _) | .u64 (.histogram _) | .i64 (.histogram _) =>
    some ("histogram", false)
  | .f64 .exponentialHistogram | .u64 .exponentialHistogram
  | .i64 .exponentialHistogram => none

/-- The `base_name` computation of `serialize_metric`
(serialize.rs lines 534-542): `_total` suffix for monotonic sums. -/
def metricBaseName (sanitized : String) (is_monotonic : Bool) : String :=
  if is_monotonic then
    if !endsWithStr sanitized "_total" then sanitized ++ "_total" else sanitized
  else sanitized

/-- The `final_name` computation of `serialize_metric`
(serialize.rs lines 529-544): sanitize, then `_total` for monotonic sums,
then the converted-unit suffix. -/
def metricFinalName (name unit : String) (is_monotonic : Bool) : String :=
  add_unit_suffix (metricBaseName (sanitize_name name) is_monotonic) (convert_unit unit)

/-- `serialize_gauge` (serialize.rs lines 662-682), one data point. -/
def gaugeLine {V : Type} (render : V → String) (name : String)
    (p : NumberDataPoint V) (s : Scope) : String :=
  name ++ write_metric_labels p.attributes s false ++ " " ++ render p.value ++ "\n"

def serialize_gauge {V : Type} (render : V → String) (name : String)
    (g : GaugeData V) (s : Scope) : String :=
  concatAll (g.data_points.map (fun p => gaugeLine render name p s))

/-- `serialize_sum` (serialize.rs lines 684-704), identical line shape. -/
def serialize_sum {V : Type} (render : V → String) (name : String)
    (sum : SumData V) (s : Scope) : String :=
  concatAll (sum.data_points.map (fun p => gaugeLine render name p s))

/-- The `u64` modulus: `cumulative_count` is a `u64` and `+=` wraps. -/
def U64MOD : Nat := 2 ^ 64

/-- The `_count` line of `serialize_histogram` (serialize.rs lines 713-723). -/
def histCountLine {V B : Type} (name : String) (p : HistogramPoint V B)
    (s : Scope) : String :=
  name ++ "_count" ++ write_metric_labels p.attributes s false ++ " "
    ++ natDecimal p.count ++ "\n"

/-- The `_sum` line of `serialize_histogram` (serialize.rs lines 725-735). -/
def histSumLine {V B : Type} (renderV : V → String) (name : String)
    (p : HistogramPoint V B) (s : Scope) : String :=
  name ++ "_sum" ++ write_metric_labels p.attributes s false ++ " "
    ++ renderV p.sum ++ "\n"

/-- The bucket loop of `serialize_histogram` (serialize.rs lines 737-752):
iterates `bounds().zip(bucket_counts())`, accumulating `cumulative_count`. -/
def histBucketLinesAux {B : Type} (renderB : B → String) (name : String)
    (attrs : List (String × String)) (s : Scope) (acc : Nat) :
    List (B × Nat) → String
  | [] => ""
  | (bound, c) :: rest =>
    let acc2 := (acc + c) % U64MOD
    name ++ "_bucket" ++ write_bucket_labels attrs s (renderB bound) ++ " "
      ++ natDecimal acc2 ++ "\n"
      ++ histBucketLinesAux renderB name attrs s acc2 rest

def histBucketLines {V B : Type} (renderB : B → String) (name : String)
    (p : HistogramPoint V B) (s : Scope) : String :=
  histBucketLinesAux renderB name p.attributes s 0 (p.bounds.zip p.bucket_counts)

/-- The final `+Inf` bucket (serialize.rs lines 754-764): its value is the
data point's total `count`. -/
def histInfLine {V B : Type} (name : String) (p : HistogramPoint V B)
    (s : Scope) : String :=
  name ++ "_bucket" ++ write_bucket_labels p.attributes s "+Inf" ++ " "
    ++ natDecimal p.count ++ "\n"

/-- One data point of `serialize_histogram` (serialize.rs lines 712-765):
count line, sum line, cumulative bucket lines, `+Inf` line — in that order. -/
def serializeHistPoint {V B : Type} (renderV : V → String) (renderB : B → String)
    (name : String) (p : HistogramPoint V B) (s : Scope) : String :=
  histCountLine name p s ++ histSumLine renderV name p s
    ++ histBucketLines renderB name p s ++ histInfLine name p s

/-- `serialize_histogram` (serialize.rs lines 706-768). -/
def serialize_histogram {V B : Type} (renderV : V → String) (renderB : B → String)
    (name : String) (h : HistogramData V B) (s : Scope) : String :=
  concatAll (h.data_points.map (fun p => serializeHistPoint renderV renderB name p s))

/-- `serialize_metric` (serialize.rs lines 517-587): classify (skipping
unsupported data, i.e. exponential histograms, with no output), compute the
final name, write the TYPE/HELP/UNIT header, then the samples. -/
def serialize_metric {F B : Type} (renderF : F → String) (renderB : B → String)
    (m : Metric F B) (s : Scope) : String :=
  match get_prometheus_type_and_is_monotonic m.data with
  | none => ""
  | some (prometheus_type, is_monotonic) =>
    let converted_unit := convert_unit m.unit
    let final_name := add_unit_suffix (metricBaseName (sanitize_name m.name) is_monotonic)
      converted_unit
    write_type_comment final_name prometheus_type
      ++ write_help_comment final_name m.description
      ++ write_unit_comment final_name converted_unit
      ++ match m.data with
        | .f64 (.gauge g) => serialize_gauge renderF final_name g s
        | .u64 (.gauge g) => serialize_gauge natDecimal final_name g s
        | .i64 (.gauge g) => serialize_gauge intDecimal final_name g s
        | .f64 (.sum sum) => serialize_sum renderF final_name sum s
        | .u64 (.sum sum) => serialize_sum natDecimal final_name sum s
        | .i64 (.sum sum) => serialize_sum intDecimal final_name sum s
        | .f64 (.histogram h) => serialize_histogram renderF renderB final_name h s
        | .u64 (.histogram h) => serialize_histogram natDecimal renderB final_name h s
        | .i64 (.histogram h) => serialize_histogram intDecimal renderB final_name h s
        | _ => ""

/-! ## View functions used to state the claims -/

/-- The bucket of values a key holds in the grouping map (`[]` if absent). -/
def lookupGroup : List (String × List String) → String → List String
  | [], _ => []
  | (k', vs) :: rest, k => if k' = k then vs else lookupGroup rest k

/-- The label names of a grouping map. -/
def groupKeys (m : List (String × List String)) : List String := m.map Prod.fst

/-- The `(bound, cumulative_count)` pairs produced by the bucket loop of
`serialize_histogram`: the running `u64` sum of `bucket_counts` along
`bounds.zip(bucket_counts)`. -/
def cumulPairs {B : Type} (acc : Nat) : List (B × Nat) → List (B × Nat)
  | [] => []
  | (bound, c) :: rest =>
    let acc2 := (acc + c) % U64MOD
    (bound, acc2) :: cumulPairs acc2 rest

/-- One `_bucket` sample line, as the bucket loop writes it. -/
def bucketLineOf {B : Type} (renderB : B → String) (name : String)
    (attrs : List (String × String)) (s : Scope) (e : B × Nat) : String :=
  name ++ "_bucket" ++ write_bucket_labels attrs s (renderB e.1) ++ " "
    ++ natDecimal e.2 ++ "\n"

/-- No character of the list is a newline; a chunk satisfying this sits on
a single line of the exposition output. -/
def allNotNL (l : List Char) : Bool := l.all (fun c => !(c == '\n'))

/-- The text split at newline characters; a trailing newline yields a final
empty chunk, exactly like the line structure of the exposition format. -/
def splitNL : List Char → List (List Char)
  | [] => [[]]
  | c :: rest =>
    if c == '\n' then [] :: splitNL rest
    else
      match splitNL rest with
      | l :: ls => (c :: l) :: ls
      | [] => [[c]]

/-- `p` is a prefix of `s`. -/
def leadsWith (p s : List Char) : Prop := ∃ r, s = p ++ r

/-- Discriminator: is the data variant an exponential histogram? -/
def isExpHistogram {F B : Type} : AggregatedMetrics F B → Bool
  | .f64 .exponentialHistogram | .u64 .exponentialHistogram
  | .i64 .exponentialHistogram => true
  | _ => false

/-- Discriminator: is the data variant a gauge? -/
def isGaugeVariant {F B : Type} : AggregatedMetrics F B → Bool
  | .f64 (.gauge _) | .u64 (.gauge _) | .i64 (.gauge _) => true
  | _ => false

/-- Discriminator: is the data variant a fixed-bucket histogram? -/
def isHistVariant {F B : Type} : AggregatedMetrics F B → Bool
  | .f64 (.histogram _) | .u64 (.histogram _) | .i64 (.histogram _) => true
  | _ => false

/-- Temporality and monotonicity of a Sum variant, `none` otherwise. -/
def sumParams {F B : Type} : AggregatedMetrics F B → Option (Temporality × Bool)
  | .f64 (.sum s) => some (s.temporality, s.is_monotonic)
  | .u64 (.sum s) => some (s.temporality, s.is_monotonic)
  | .i64 (.sum s) => some (s.temporality, s.is_monotonic)
  | _ => none

/-! ## Definitions following the specification's words (for comparison with
the code's behaviour; not translations of the source) -/

/-- The label value the specification prescribes for colliding attribute
keys: the values concatenated with `;` in the order of the original
(pre-sanitization) attribute keys. Follows the spec's words, for comparison
with `write_attributes_as_labels`. -/
def specCollidedValue (attrs : List (String × String)) (k : String) : String :=
  escape_label_value
    (joinSep ";" ((attrs.filter (fun a => sanitize_name a.1 == k)).map Prod.snd))

/-- The escaped description the specification prescribes for `# HELP` lines:
backslash, newline, tab and carriage return escaped. Follows the spec's
words, for comparison with `write_help_comment`. -/
def specEscapedDescription (s : String) : String :=
  ⟨s.data.foldr
    (fun c acc =>
      (if c = '\\' then ['\\', '\\']
       else if c = '\n' then ['\\', 'n']
       else if c = '\t' then ['\\', 't']
       else if c = '\r' then ['\\', 'r']
       else [c]) ++ acc) []⟩

/-! ## General string lemmas -/

theorem strApp_assoc (a b c : String) : a ++ b ++ c = a ++ (b ++ c) := by
  apply String.ext
  simp [String.data_append]

theorem allNotNL_append (a b : List Char) :
    allNotNL (a ++ b) = (allNotNL a && allNotNL b) := by
  simp [allNotNL]

theorem allNotNL_strApp {a b : String} (ha : allNotNL a.data = true)
    (hb : allNotNL b.data = true) : allNotNL (a ++ b).data = true := by
  rw [String.data_append, allNotNL_append, ha, hb]
  rfl

theorem concatAll_notNL (l : List String) (h : ∀ x ∈ l, allNotNL x.data = true) :
    allNotNL (concatAll l).data = true := by
  induction l with
  | nil => decide
  | cons x xs ih =>
    exact allNotNL_strApp (h x (List.mem_cons_self x xs))
      (ih (fun y hy => h y (List.mem_cons_of_mem x hy)))

theorem escapeChar_notNL (c : Char) : allNotNL (escapeChar c).data = true := by
  unfold escapeChar
  repeat' split
  any_goals decide
  rename_i h1 h2 h3 h4 h5 h6
  simp only [String.singleton, allNotNL, List.all_cons, List.all_nil, Bool.and_true]
  simpa using h3

theorem escape_notNL (s : String) : allNotNL (escape_label_value s).data = true := by
  unfold escape_label_value
  refine allNotNL_strApp (allNotNL_strApp (by decide) ?_) (by decide)
  refine concatAll_notNL _ ?_
  intro x hx
  obtain ⟨c, _, rfl⟩ := List.mem_map.mp hx
  exact escapeChar_notNL c

theorem decDigit_notNL (n : Nat) : (!(decDigit n == '\n')) = true := by
  unfold decDigit
  split <;> decide

theorem natDecimalAux_notNL : ∀ fuel n, allNotNL (natDecimalAux fuel n) = true := by
  intro fuel
  induction fuel with
  | zero => intro n; rfl
  | succ f ih =>
    intro n
    unfold natDecimalAux
    split
    · simp only [allNotNL, List.all_cons, List.all_nil, Bool.and_true]
      exact decDigit_notNL n
    · rw [allNotNL_append, ih (n / 10)]
      simp only [allNotNL, List.all_cons, List.all_nil, Bool.and_true, Bool.true_and]
      exact decDigit_notNL (n % 10)

theorem natDecimal_notNL (n : Nat) : allNotNL (natDecimal n).data = true :=
  natDecimalAux_notNL (n + 1) n

/-! ## `sanitize_name` emits no newline -/

theorem restInvalid_notNL : ∀ (l : List Char) (prev : Bool),
    restInvalid prev l = false → allNotNL l = true := by
  intro l
  induction l with
  | nil => intro prev _; rfl
  | cons c cs ih =>
    intro prev h
    unfold restInvalid at h
    simp only [allNotNL, List.all_cons, Bool.and_eq_true]
    cases hu : (c == '_') with
    | true =>
      rw [hu] at h
      simp only [if_true] at h
      have hc : c = '_' := by simpa using hu
      refine ⟨by subst hc; decide, ?_⟩
      cases hp : prev with
      | true => rw [hp] at h; simp at h
      | false => rw [hp] at h; simp only [Bool.false_eq_true, if_false] at h; exact ih true h
    | false =>
      rw [hu] at h
      simp only [Bool.false_eq_true, if_false] at h
      cases hval : (c.isAlphanum || c == ':') with
      | false => rw [hval] at h; simp at h
      | true =>
        rw [hval] at h
        simp only [Bool.not_true, Bool.false_eq_true, if_false] at h
        refine ⟨?_, ih false h⟩
        simp only [Bool.not_eq_true', beq_eq_false_iff_ne, ne_eq]
        intro hcn
        subst hcn
        exact absurd hval (by decide)

theorem needsSanitization_false_notNL (l : List Char)
    (h : needsSanitization l = false) : allNotNL l = true := by
  cases l with
  | nil => rfl
  | cons first rest =>
    simp only [needsSanitization] at h
    simp only [allNotNL, List.all_cons, Bool.and_eq_true]
    cases hb : (first.isAlpha || first == '_' || first == ':') with
    | false => rw [hb] at h; simp at h
    | true =>
      rw [hb] at h
      simp only [Bool.not_true, Bool.false_eq_true, if_false] at h
      refine ⟨?_, restInvalid_notNL rest false h⟩
      simp only [Bool.not_eq_true', beq_eq_false_iff_ne, ne_eq]
      intro hcn
      subst hcn
      exact absurd hb (by decide)

theorem sanitizeFirstChar_notNL (c : Char) : (!(sanitizeFirstChar c == '\n')) = true := by
  unfold sanitizeFirstChar
  split
  · rename_i hval
    simp only [Bool.not_eq_true', beq_eq_false_iff_ne, ne_eq]
    intro hcn
    subst hcn
    exact absurd hval (by decide)
  · decide

theorem sanitizeRestChar_notNL (c : Char) : (!(sanitizeRestChar c == '\n')) = true := by
  unfold sanitizeRestChar
  split
  · rename_i hval
    simp only [Bool.not_eq_true', beq_eq_false_iff_ne, ne_eq]
    intro hcn
    subst hcn
    exact absurd hval (by decide)
  · decide

theorem sanitizeRaw_notNL (l : List Char) : allNotNL (sanitizeRaw l) = true := by
  cases l with
  | nil => decide
  | cons c cs =>
    simp only [sanitizeRaw, allNotNL, List.all_cons, List.all_map]
    rw [sanitizeFirstChar_notNL c, Bool.true_and]
    rw [List.all_eq_true]
    intro x _
    exact sanitizeRestChar_notNL x

theorem replaceDU_notNL : ∀ l, allNotNL l = true → allNotNL (replaceDU l) = true := by
  intro l
  induction l using replaceDU.induct with
  | case1 => intro _; decide
  | case2 c => intro h; exact h
  | case3 a b rest hab ih =>
    intro h
    simp only [allNotNL, List.all_cons, Bool.and_eq_true] at h
    rw [replaceDU, if_pos hab]
    simp only [allNotNL, List.all_cons, Bool.and_eq_true]
    exact ⟨by decide, ih h.2.2⟩
  | case4 a b rest hab ih =>
    intro h
    simp only [allNotNL, List.all_cons, Bool.and_eq_true] at h
    rw [replaceDU, if_neg hab]
    simp only [allNotNL, List.all_cons, Bool.and_eq_true]
    refine ⟨h.1, ?_⟩
    have := ih (by simp only [allNotNL, List.all_cons, Bool.and_eq_true]; exact h.2)
    simpa [allNotNL] using this

theorem collapseAux_notNL : ∀ fuel l, allNotNL l = true →
    allNotNL (collapseAux fuel l) = true := by
  intro fuel
  induction fuel with
  | zero => intro l h; exact h
  | succ f ih =>
    intro l h
    unfold collapseAux
    split
    · exact ih _ (replaceDU_notNL l h)
    · exact h

theorem sanitize_name_notNL (s : String) : allNotNL (sanitize_name s).data = true := by
  unfold sanitize_name
  split
  · exact collapseAux_notNL _ _ (sanitizeRaw_notNL s.data)
  · rename_i h
    rw [Bool.not_eq_true] at h
    exact needsSanitization_false_notNL s.data h

theorem joinSep_notNL (sep : String) (l : List String)
    (hsep : allNotNL sep.data = true) (h : ∀ x ∈ l, allNotNL x.data = true) :
    allNotNL (joinSep sep l).data = true := by
  induction l with
  | nil => rfl
  | cons x xs ih =>
    cases xs with
    | nil => exact h x (by simp)
    | cons y ys =>
      exact allNotNL_strApp (allNotNL_strApp (h x (by simp)) hsep)
        (ih (fun z hz => h z (List.mem_cons_of_mem x hz)))

/-! ## Lemmas about the grouping map of `write_attributes_as_labels` -/

theorem lookupGroup_insertGroup (m : List (String × List String)) (k v k' : String) :
    lookupGroup (insertGroup m k v) k'
      = if k' = k then lookupGroup m k' ++ [v] else lookupGroup m k' := by
  induction m with
  | nil =>
    by_cases h : k' = k
    · subst h; simp [insertGroup, lookupGroup]
    · simp [insertGroup, lookupGroup, h, Ne.symm h]
  | cons e rest ih =>
    obtain ⟨k0, vs0⟩ := e
    by_cases h0 : k0 = k
    · subst h0
      by_cases h' : k0 = k'
      · subst h'; simp [insertGroup, lookupGroup]
      · simp [insertGroup, lookupGroup, h', Ne.symm h']
    · by_cases h' : k0 = k'
      · subst h'
        simp [insertGroup, lookupGroup, h0, Ne.symm h0]
      · simp [insertGroup, lookupGroup, h0, h', ih]

theorem mem_groupKeys_insertGroup {m : List (String × List String)}
    {k v k' : String} (h : k' ∈ groupKeys (insertGroup m k v)) :
    k' ∈ groupKeys m ∨ k' = k := by
  induction m with
  | nil =>
    simp only [insertGroup, groupKeys, List.map_cons, List.map_nil,
      List.mem_singleton] at h
    exact Or.inr h
  | cons e rest ih =>
    obtain ⟨k0, vs0⟩ := e
    by_cases h0 : k0 = k
    · subst h0
      simp only [insertGroup, groupKeys] at h ⊢
      simp only [eq_self_iff_true, if_true] at h
      simp only [List.map_cons, List.mem_cons] at h ⊢
      rcases h with hh | hh
      · exact Or.inl (Or.inl hh)
      · exact Or.inl (Or.inr hh)
    · simp only [insertGroup, groupKeys] at h ⊢
      rw [if_neg h0] at h
      simp only [List.map_cons, List.mem_cons] at h ⊢
      rcases h with hh | hh
      · exact Or.inl (Or.inl hh)
      · rcases ih hh with hh2 | hh2
        · exact Or.inl (Or.inr hh2)
        · exact Or.inr hh2

theorem nodup_groupKeys_insertGroup {m : List (String × List String)}
    {k v : String} (h : (groupKeys m).Nodup) :
    (groupKeys (insertGroup m k v)).Nodup := by
  induction m with
  | nil => simp [insertGroup, groupKeys]
  | cons e rest ih =>
    obtain ⟨k0, vs0⟩ := e
    simp only [groupKeys, List.map_cons, List.nodup_cons] at h
    by_cases h0 : k0 = k
    · subst h0
      simp only [insertGroup, groupKeys]
      simp only [eq_self_iff_true, if_true]
      simp only [List.map_cons, List.nodup_cons]
      exact ⟨h.1, h.2⟩
    · simp only [insertGroup, groupKeys]
      rw [if_neg h0]
      simp only [List.map_cons, List.nodup_cons]
      refine ⟨?_, ih h.2⟩
      intro hmem
      rcases mem_groupKeys_insertGroup hmem with hh | hh
      · exact h.1 hh
      · exact h0 hh

theorem lookupGroup_foldl (attrs : List (String × String)) :
    ∀ (m : List (String × List String)) (k : String),
    lookupGroup (attrs.foldl (fun m kv => insertGroup m (sanitize_name kv.1) kv.2) m) k
      = lookupGroup m k
        ++ (attrs.filter (fun a => sanitize_name a.1 == k)).map Prod.snd := by
  induction attrs with
  | nil => intro m k; simp
  | cons a rest ih =>
    intro m k
    rw [List.foldl_cons, ih, lookupGroup_insertGroup, List.filter_cons]
    by_cases hk : k = sanitize_name a.1
    · rw [if_pos hk, if_pos (by simp only [beq_iff_eq]; exact hk.symm),
        List.map_cons, List.append_assoc]
      rfl
    · rw [if_neg hk, if_neg (by simp only [beq_iff_eq]; exact fun hh => hk hh.symm)]

theorem groupBySanitized_lookup (attrs : List (String × String)) (k : String) :
    lookupGroup (groupBySanitized attrs) k
      = (attrs.filter (fun a => sanitize_name a.1 == k)).map Prod.snd := by
  have h := lookupGroup_foldl attrs [] k
  simpa [groupBySanitized, lookupGroup] using h

theorem groupBySanitized_nodup (attrs : List (String × String)) :
    (groupKeys (groupBySanitized attrs)).Nodup := by
  have aux : ∀ (l : List (String × String)) (m : List (String × List String)),
      (groupKeys m).Nodup →
      (groupKeys (l.foldl (fun m kv => insertGroup m (sanitize_name kv.1) kv.2) m)).Nodup := by
    intro l
    induction l with
    | nil => intro m hm; exact hm
    | cons a rest ih =>
      intro m hm
      rw [List.foldl_cons]
      exact ih _ (nodup_groupKeys_insertGroup hm)
  exact aux attrs [] (by simp [groupKeys])

theorem groupKeys_foldl_prop (P : String → Prop) (attrs : List (String × String)) :
    ∀ (m : List (String × List String)), (∀ k ∈ groupKeys m, P k) →
    (∀ a ∈ attrs, P (sanitize_name a.1)) →
    ∀ k ∈ groupKeys (attrs.foldl (fun m kv => insertGroup m (sanitize_name kv.1) kv.2) m), P k := by
  induction attrs with
  | nil => intro m hm _ k hk; exact hm k hk
  | cons a rest ih =>
    intro m hm hattrs k hk
    rw [List.foldl_cons] at hk
    refine ih _ ?_ (fun b hb => hattrs b (List.mem_cons_of_mem a hb)) k hk
    intro k' hk'
    rcases mem_groupKeys_insertGroup hk' with hh | hh
    · exact hm k' hh
    · subst hh; exact hattrs a (List.mem_cons_self a rest)

theorem groupBySanitized_keys_notNL (attrs : List (String × String)) :
    ∀ k ∈ groupKeys (groupBySanitized attrs), allNotNL k.data = true := by
  refine groupKeys_foldl_prop _ attrs [] (by simp [groupKeys]) ?_
  intro a _
  exact sanitize_name_notNL a.1

theorem lookupGroup_ne_nil_mem {m : List (String × List String)} {k : String}
    (h : lookupGroup m k ≠ []) : k ∈ groupKeys m := by
  induction m with
  | nil => exact absurd rfl h
  | cons e rest ih =>
    obtain ⟨k0, vs0⟩ := e
    by_cases h0 : k0 = k
    · subst h0; simp [groupKeys]
    · simp only [lookupGroup, if_neg h0] at h
      simp only [groupKeys, List.map_cons, List.mem_cons]
      exact Or.inr (ih h)

theorem mem_of_lookupGroup {m : List (String × List String)} {k : String}
    {vs : List String} (h : lookupGroup m k = vs) (hne : vs ≠ []) : (k, vs) ∈ m := by
  induction m with
  | nil => exact absurd h.symm hne
  | cons e rest ih =>
    obtain ⟨k0, vs0⟩ := e
    by_cases h0 : k0 = k
    · subst h0
      simp only [lookupGroup, if_pos rfl] at h
      subst h
      exact List.mem_cons_self _ _
    · simp only [lookupGroup, if_neg h0] at h
      exact List.mem_cons_of_mem _ (ih h)

/-! ## The label writers never emit a newline -/

theorem labelValueText_notNL (vs : List String) :
    allNotNL (labelValueText vs).data = true := by
  unfold labelValueText
  split
  · exact escape_notNL _
  · exact escape_notNL _

theorem renderLabel_notNL (e : String × List String)
    (h : allNotNL e.1.data = true) : allNotNL (renderLabel e).data = true :=
  allNotNL_strApp (allNotNL_strApp h (by decide)) (labelValueText_notNL e.2)

theorem write_attributes_notNL (attrs : List (String × String)) :
    allNotNL (write_attributes_as_labels attrs).1.data = true := by
  unfold write_attributes_as_labels
  split
  · rfl
  · refine joinSep_notNL _ _ (by decide) ?_
    intro x hx
    obtain ⟨e, he, rfl⟩ := List.mem_map.mp hx
    exact renderLabel_notNL e
      (groupBySanitized_keys_notNL attrs e.1 (List.mem_map_of_mem Prod.fst he))

theorem scopeAttrLabels_notNL (l : List (String × String)) :
    allNotNL (scopeAttrLabels l).data = true := by
  induction l with
  | nil => rfl
  | cons kv rest ih =>
    obtain ⟨k, v⟩ := kv
    simp only [scopeAttrLabels]
    refine allNotNL_strApp ?_ ih
    split
    · rfl
    · exact allNotNL_strApp
        (allNotNL_strApp (allNotNL_strApp (by decide) (sanitize_name_notNL k)) (by decide))
        (escape_notNL v)

theorem write_scope_labels_notNL (s : Scope) :
    allNotNL (write_scope_labels s).data = true := by
  unfold write_scope_labels
  refine allNotNL_strApp (allNotNL_strApp (allNotNL_strApp ?_ ?_) ?_)
    (scopeAttrLabels_notNL s.attributes)
  · split
    · rfl
    · exact allNotNL_strApp (by decide) (escape_notNL s.name)
  · cases s.version with
    | none => rfl
    | some v =>
      simp only
      split
      · rfl
      · exact allNotNL_strApp (by decide) (escape_notNL v)
  · cases s.schema_url with
    | none => rfl
    | some u =>
      simp only
      split
      · rfl
      · exact allNotNL_strApp (by decide) (escape_notNL u)

theorem write_metric_labels_notNL (attrs : List (String × String)) (s : Scope)
    (b : Bool) : allNotNL (write_metric_labels attrs s b).data = true := by
  unfold write_metric_labels
  split
  · refine allNotNL_strApp (allNotNL_strApp (allNotNL_strApp (by decide)
      (write_attributes_notNL attrs)) ?_) (by decide)
    split
    · exact write_scope_labels_notNL s
    · rfl
  · rfl

theorem write_bucket_labels_notNL (attrs : List (String × String)) (s : Scope)
    (le_value : String) : allNotNL (write_bucket_labels attrs s le_value).data = true := by
  unfold write_bucket_labels
  refine allNotNL_strApp (allNotNL_strApp (allNotNL_strApp (allNotNL_strApp (by decide)
    (write_attributes_notNL attrs)) ?_) (write_scope_labels_notNL s)) (by decide)
  split
  · exact allNotNL_strApp (by decide) (escape_notNL le_value)
  · exact allNotNL_strApp (by decide) (escape_notNL le_value)

/-! ## Lemmas about `values.sort()` -/

theorem charListLe_total : ∀ a b, charListLe a b = false → charListLe b a = true := by
  intro a
  induction a with
  | nil => intro b h; exact absurd h (by simp [charListLe])
  | cons x xs ih =>
    intro b h
    cases b with
    | nil => rfl
    | cons y ys =>
      unfold charListLe at h ⊢
      by_cases h1 : x.toNat < y.toNat
      · rw [if_pos h1] at h; exact absurd h (by simp)
      · rw [if_neg h1] at h
        by_cases h2 : y.toNat < x.toNat
        · rw [if_pos h2]
        · rw [if_neg h2] at h
          rw [if_neg h2, if_neg h1]
          exact ih ys h

theorem insertSorted_perm (x : String) (l : List String) :
    (insertSorted x l).Perm (x :: l) := by
  induction l with
  | nil => exact List.Perm.refl _
  | cons y ys ih =>
    unfold insertSorted
    split
    · exact List.Perm.refl _
    · exact ((List.perm_cons y).mpr ih).trans (List.Perm.swap x y ys)

theorem sortStrings_perm (l : List String) : (sortStrings l).Perm l := by
  induction l with
  | nil => exact List.Perm.refl _
  | cons x xs ih =>
    exact (insertSorted_perm x (sortStrings xs)).trans ((List.perm_cons x).mpr ih)

theorem chain'_insertSorted (x : String) (l : List String)
    (h : List.Chain' (fun a b => strLeB a b = true) l) :
    List.Chain' (fun a b => strLeB a b = true) (insertSorted x l) := by
  induction l with
  | nil => simp [insertSorted]
  | cons y ys ih =>
    unfold insertSorted
    split
    · rename_i hxy
      exact List.chain'_cons.mpr ⟨hxy, h⟩
    · rename_i hxy
      have hf : strLeB x y = false := by
        cases hb : strLeB x y
        · rfl
        · exact absurd hb hxy
      have hyx : strLeB y x = true := charListLe_total x.data y.data hf
      refine List.chain'_cons'.mpr ⟨?_, ih h.tail⟩
      intro z hz
      cases ys with
      | nil =>
        simp only [insertSorted, List.head?_cons, Option.mem_def,
          Option.some.injEq] at hz
        subst hz
        exact hyx
      | cons w ws =>
        unfold insertSorted at hz
        split at hz
        · simp only [List.head?_cons, Option.mem_def, Option.some.injEq] at hz
          subst hz
          exact hyx
        · simp only [List.head?_cons, Option.mem_def, Option.some.injEq] at hz
          subst hz
          exact (List.chain'_cons.mp h).1

theorem sortStrings_chain (l : List String) :
    List.Chain' (fun a b => strLeB a b = true) (sortStrings l) := by
  induction l with
  | nil => simp [sortStrings]
  | cons x xs ih => exact chain'_insertSorted x _ ih

theorem labelValueText_eq (vs : List String) (h : vs ≠ []) :
    labelValueText vs = escape_label_value (joinSep ";" (sortStrings vs)) := by
  unfold labelValueText
  split
  · rename_i hlen
    cases vs with
    | nil => exact absurd rfl h
    | cons v t =>
      cases t with
      | nil => rfl
      | cons w u => simp at hlen
  · rfl

/-! ## Line structure -/

theorem splitNL_append (a : List Char) (b : List Char) (ha : allNotNL a = true) :
    splitNL (a ++ '\n' :: b) = a :: splitNL b := by
  induction a with
  | nil => simp [splitNL]
  | cons c cs ih =>
    simp only [allNotNL, List.all_cons, Bool.and_eq_true] at ha
    have hc : (c == '\n') = false := by simpa using ha.1
    simp only [List.cons_append, List.append_eq, splitNL, hc, Bool.false_eq_true,
      if_false]
    rw [ih ha.2]

/-! ## Lemmas about the bucket loop -/

theorem histBucketLinesAux_eq {B : Type} (rB : B → String) (name : String)
    (attrs : List (String × String)) (s : Scope) :
    ∀ (l : List (B × Nat)) (acc : Nat),
    histBucketLinesAux rB name attrs s acc l
      = concatAll ((cumulPairs acc l).map (bucketLineOf rB name attrs s)) := by
  intro l
  induction l with
  | nil => intro acc; rfl
  | cons e rest ih =>
    intro acc
    obtain ⟨bound, c⟩ := e
    simp only [histBucketLinesAux, cumulPairs, List.map_cons, concatAll]
    rw [ih]
    simp only [bucketLineOf]

theorem cumulPairs_map_fst {B : Type} : ∀ (l : List (B × Nat)) (acc : Nat),
    (cumulPairs acc l).map Prod.fst = l.map Prod.fst := by
  intro l
  induction l with
  | nil => intro acc; rfl
  | cons e rest ih =>
    intro acc
    obtain ⟨bound, c⟩ := e
    simp only [cumulPairs, List.map_cons, ih]

theorem cumulPairs_length {B : Type} : ∀ (l : List (B × Nat)) (acc : Nat),
    (cumulPairs acc l).length = l.length := by
  intro l
  induction l with
  | nil => intro acc; rfl
  | cons e rest ih =>
    intro acc
    obtain ⟨bound, c⟩ := e
    simp only [cumulPairs, List.length_cons, ih]

theorem cumulPairs_chain {B : Type} : ∀ (l : List (B × Nat)) (acc : Nat),
    acc + (l.map Prod.snd).sum < U64MOD →
    List.Chain' (· ≤ ·) ((cumulPairs acc l).map Prod.snd)
      ∧ ∀ z ∈ ((cumulPairs acc l).map Prod.snd).head?, acc ≤ z := by
  intro l
  induction l with
  | nil =>
    intro acc _
    exact ⟨List.chain'_nil, by simp [cumulPairs]⟩
  | cons e rest ih =>
    intro acc h
    obtain ⟨bound, c⟩ := e
    simp only [List.map_cons, List.sum_cons] at h
    have hle : acc + c < U64MOD := by omega
    have hmod : (acc + c) % U64MOD = acc + c := Nat.mod_eq_of_lt hle
    have ih2 := ih ((acc + c) % U64MOD) (by rw [hmod]; omega)
    simp only [cumulPairs, List.map_cons]
    refine ⟨List.chain'_cons'.mpr ⟨?_, ih2.1⟩, ?_⟩
    · intro z hz
      have hz2 := ih2.2 z hz
      omega
    · intro z hz
      simp only [List.head?_cons, Option.mem_def, Option.some.injEq] at hz
      subst hz
      omega

theorem zip_map_snd_take {α β : Type} : ∀ (a : List α) (b : List β),
    (a.zip b).map Prod.snd = b.take a.length := by
  intro a
  induction a with
  | nil => intro b; simp
  | cons x xs ih =>
    intro b
    cases b with
    | nil => simp
    | cons y ys => simp [List.zip_cons_cons, ih]

/-! ## More string utilities -/

theorem strApp_empty (a : String) : a ++ "" = a := by
  apply String.ext
  simp [String.data_append]

theorem strEmpty_append (a : String) : "" ++ a = a := by
  apply String.ext
  simp [String.data_append]

theorem leadsWith_data (a b : String) : leadsWith a.data (a ++ b).data :=
  ⟨b.data, by simp [String.data_append]⟩

theorem contains_eq_false_of_not_mem {c : Char} {l : List Char} (h : c ∉ l) :
    l.contains c = false := by
  cases hb : l.contains c
  · rfl
  · obtain ⟨a, ha, hba⟩ := List.contains_iff_exists_mem_beq.mp hb
    rw [beq_iff_eq] at hba
    exact absurd (hba ▸ ha) h

theorem findCharIdx_eq_none {c : Char} :
    ∀ l : List Char, c ∉ l → findCharIdx c l = none := by
  intro l
  induction l with
  | nil => intro _; rfl
  | cons x xs ih =>
    intro h
    have hxc : (x == c) = false :=
      beq_eq_false_iff_ne.mpr (fun hh => h (hh ▸ List.mem_cons_self x xs))
    simp [findCharIdx, hxc, ih (fun hm => h (List.mem_cons_of_mem x hm))]

/-- Splitting the bucket-loop output at newlines: every produced line starts
with `name ++ "_bucket"`. -/
theorem splitNL_histBucketLinesAux {B : Type} (rB : B → String) (name : String)
    (attrs : List (String × String)) (s : Scope)
    (hname : allNotNL name.data = true) :
    ∀ (l : List (B × Nat)) (acc : Nat) (tail : List Char),
    ∃ bls, splitNL ((histBucketLinesAux rB name attrs s acc l).data ++ tail)
        = bls ++ splitNL tail
      ∧ ∀ x ∈ bls, leadsWith (name ++ "_bucket").data x := by
  intro l
  induction l with
  | nil =>
    intro acc tail
    exact ⟨[], by simp [histBucketLinesAux], by simp⟩
  | cons e rest ih =>
    intro acc tail
    obtain ⟨bound, c⟩ := e
    obtain ⟨bls, hb1, hb2⟩ := ih ((acc + c) % U64MOD) tail
    have hgroup : name ++ "_bucket" ++ write_bucket_labels attrs s (rB bound) ++ " "
        ++ natDecimal ((acc + c) % U64MOD)
        = (name ++ "_bucket") ++ (write_bucket_labels attrs s (rB bound)
            ++ (" " ++ natDecimal ((acc + c) % U64MOD))) := by
      simp only [strApp_assoc]
    have hpre : allNotNL (name ++ "_bucket" ++ write_bucket_labels attrs s (rB bound)
        ++ " " ++ natDecimal ((acc + c) % U64MOD)).data = true :=
      allNotNL_strApp (allNotNL_strApp (allNotNL_strApp (allNotNL_strApp hname
        (by decide)) (write_bucket_labels_notNL attrs s (rB bound))) (by decide))
        (natDecimal_notNL _)
    refine ⟨(name ++ "_bucket" ++ write_bucket_labels attrs s (rB bound) ++ " "
      ++ natDecimal ((acc + c) % U64MOD)).data :: bls, ?_, ?_⟩
    · have hdata : (histBucketLinesAux rB name attrs s acc ((bound, c) :: rest)).data ++ tail
          = (name ++ "_bucket" ++ write_bucket_labels attrs s (rB bound) ++ " "
              ++ natDecimal ((acc + c) % U64MOD)).data
            ++ '\n' :: ((histBucketLinesAux rB name attrs s ((acc + c) % U64MOD) rest).data
              ++ tail) := by
        simp only [histBucketLinesAux, String.data_append]
        simp [List.append_assoc, List.singleton_append]
      rw [hdata, splitNL_append _ _ hpre, hb1]
      rfl
    · intro x hx
      rcases List.mem_cons.mp hx with rfl | hx2
      · rw [hgroup]
        exact leadsWith_data _ _
      · exact hb2 x hx2

/-! ## Scope labels always start with a comma (when present) -/

theorem scopeAttrLabels_comma (l : List (String × String))
    (h : ∃ kv ∈ l, ¬(kv.1 = "name" ∨ kv.1 = "version" ∨ kv.1 = "schema_url")) :
    ∃ r, scopeAttrLabels l = "," ++ r := by
  induction l with
  | nil =>
    obtain ⟨kv, hm, _⟩ := h
    exact absurd hm (List.not_mem_nil kv)
  | cons e rest ih =>
    obtain ⟨k, v⟩ := e
    simp only [scopeAttrLabels]
    by_cases hres : k = "name" ∨ k = "version" ∨ k = "schema_url"
    · obtain ⟨kv, hm, hk⟩ := h
      rcases List.mem_cons.mp hm with rfl | hm2
      · exact absurd hres hk
      · obtain ⟨r, hr⟩ := ih ⟨kv, hm2, hk⟩
        refine ⟨r, ?_⟩
        rw [if_pos hres, strEmpty_append, hr]
    · refine ⟨("otel_scope_" ++ sanitize_name k ++ "=" ++ escape_label_value v)
        ++ scopeAttrLabels rest, ?_⟩
      rw [if_neg hres, show (",otel_scope_" : String) = "," ++ "otel_scope_" by decide]
      simp only [strApp_assoc]

theorem write_scope_labels_comma (s : Scope)
    (h : hasScopeName s = true ∨ hasScopeVersion s = true ∨ hasScopeSchema s = true
      ∨ ∃ kv ∈ s.attributes, ¬(kv.1 = "name" ∨ kv.1 = "version" ∨ kv.1 = "schema_url")) :
    ∃ r, write_scope_labels s = "," ++ r := by
  unfold write_scope_labels
  by_cases hn : s.name = ""
  · rw [if_pos hn, strEmpty_append]
    have hvcase : (match s.version with
        | some v => if v = "" then "" else ",otel_scope_version=" ++ escape_label_value v
        | none => "") = ""
        ∨ ∃ r, (match s.version with
          | some v => if v = "" then "" else ",otel_scope_version=" ++ escape_label_value v
          | none => "") = "," ++ r := by
      cases hv : s.version with
      | none => exact Or.inl rfl
      | some v =>
        by_cases hve : v = ""
        · exact Or.inl (by simp [hve])
        · refine Or.inr ⟨"otel_scope_version=" ++ escape_label_value v, ?_⟩
          show (if v = "" then "" else ",otel_scope_version=" ++ escape_label_value v) = _
          rw [if_neg hve,
            show (",otel_scope_version=" : String) = "," ++ "otel_scope_version=" by decide]
          simp only [strApp_assoc]
    have hscase : (match s.schema_url with
        | some u => if u = "" then "" else ",otel_scope_schema_url=" ++ escape_label_value u
        | none => "") = ""
        ∨ ∃ r, (match s.schema_url with
          | some u => if u = "" then "" else ",otel_scope_schema_url=" ++ escape_label_value u
          | none => "") = "," ++ r := by
      cases hu : s.schema_url with
      | none => exact Or.inl rfl
      | some u =>
        by_cases hue : u = ""
        · exact Or.inl (by simp [hue])
        · refine Or.inr ⟨"otel_scope_schema_url=" ++ escape_label_value u, ?_⟩
          show (if u = "" then "" else ",otel_scope_schema_url=" ++ escape_label_value u) = _
          rw [if_neg hue,
            show (",otel_scope_schema_url=" : String) = "," ++ "otel_scope_schema_url=" by decide]
          simp only [strApp_assoc]
    rcases hvcase with hv0 | ⟨rv, hrv⟩
    · rw [hv0, strEmpty_append]
      rcases hscase with hs0 | ⟨ru, hru⟩
      · rw [hs0, strEmpty_append]
        apply scopeAttrLabels_comma
        rcases h with hh | hh | hh | hh
        · exact absurd hh (by simp [hasScopeName, hn])
        · exact absurd hh (by
            cases hv : s.version with
            | none => simp [hasScopeVersion, hv]
            | some v =>
              cases hve : decide (v = "") with
              | true =>
                have : v = "" := of_decide_eq_true hve
                subst this
                simp [hasScopeVersion, hv]
              | false =>
                exfalso
                have hne : ¬v = "" := of_decide_eq_false hve
                rw [hv] at hv0
                simp only [if_neg hne] at hv0
                have hd := congrArg String.data hv0
                simp [String.data_append] at hd)
        · exact absurd hh (by
            cases hu : s.schema_url with
            | none => simp [hasScopeSchema, hu]
            | some u =>
              cases hue : decide (u = "") with
              | true =>
                have : u = "" := of_decide_eq_true hue
                subst this
                simp [hasScopeSchema, hu]
              | false =>
                exfalso
                have hne : ¬u = "" := of_decide_eq_false hue
                rw [hu] at hs0
                simp only [if_neg hne] at hs0
                have hd := congrArg String.data hs0
                simp [String.data_append] at hd)
        · exact hh
      · rw [hru]
        exact ⟨ru ++ scopeAttrLabels s.attributes, by simp only [strApp_assoc]⟩
    · rw [hrv]
      refine ⟨(rv ++ (match s.schema_url with
        | some u => if u = "" then "" else ",otel_scope_schema_url=" ++ escape_label_value u
        | none => "")) ++ scopeAttrLabels s.attributes, ?_⟩
      simp only [strApp_assoc]
  · refine ⟨("otel_scope_name=" ++ escape_label_value s.name
      ++ (match s.version with
        | some v => if v = "" then "" else ",otel_scope_version=" ++ escape_label_value v
        | none => "")
      ++ (match s.schema_url with
        | some u => if u = "" then "" else ",otel_scope_schema_url=" ++ escape_label_value u
        | none => ""))
      ++ scopeAttrLabels s.attributes, ?_⟩
    rw [if_neg hn, show (",otel_scope_name=" : String) = "," ++ "otel_scope_name=" by decide]
    simp only [strApp_assoc]

/-! ## Claim theorems -/

/-- C1: the claim says the unit suffix is appended to the sanitized name first
and `_total` is computed against that result, giving
`request_duration_seconds_total`. The code does the opposite: it appends
`_total` to the sanitized name first (serialize.rs lines 534-542) and only
then the unit suffix (line 544), so the final name is
`request_duration_total_seconds` — while the crate's own builder docs
(exporter.rs lines 165-168) promise `request_duration_milliseconds_total`.
This theorem evaluates the code at the claim's input. -/
theorem c1_code_appends_total_before_unit :
    metricFinalName "request_duration" "seconds" true = "request_duration_total_seconds"
    ∧ metricFinalName "request_duration" "seconds" true ≠ "request_duration_seconds_total"
    ∧ serialize_metric (fun _ : Unit => "") (fun _ : Unit => "")
        ⟨"request_duration", "", "seconds", .u64 (.sum ⟨.cumulative, true, []⟩)⟩
        ⟨"", none, none, []⟩
      = "# TYPE request_duration_total_seconds counter\n"
        ++ "# UNIT request_duration_total_seconds seconds\n" := by
  refine ⟨by decide, by decide, by decide⟩

/-- C5: the claim says `sanitize_name` output never contains a run of two or
more underscores. It fails on inputs that begin with exactly two underscores:
the fast-path validity scan initialises its previous-underscore flag to
`false` after consuming the first character (serialize.rs line 128), so
`"__name"` is judged already valid and returned unchanged — containing the
double underscore the function's own doc comment (serialize.rs line 110)
says is collapsed, as it indeed is for `"invalid__name"`. -/
theorem c5_leading_double_underscore_kept :
    sanitize_name "__name" = "__name"
    ∧ containsDU ("__name".data) = true
    ∧ sanitize_name "invalid__name" = "invalid_name" := by
  refine ⟨by decide, by decide, by decide⟩

/-- C6 counterexample: the claim's table maps `By` to `bytes`, but the code's
match (serialize.rs line 240) covers only `"b" | "bytes"`, so `By` passes
through unchanged. -/
theorem c6_By_passes_through :
    convert_unit "By" = "By" ∧ ("By" : String) ≠ "bytes" :=
  ⟨by decide, by decide⟩

/-- C6 as amended: `convert_unit` trims (Rust's `char::is_whitespace`, the
Unicode White_Space set — the `"\x0Cs"` case exercises a non-ASCII-subset
whitespace character), maps empty to empty, strips one bracketed span, maps
`1` to `ratio`, replaces `/` by `_per_`, maps the fixed table
`ms, s, m, kg, g, b, bytes, %` — but `By` is NOT in the table and passes
through unchanged — and every other unmapped, already-trimmed, bracket-free
unit passes through unchanged. -/
theorem c6_unit_conversion :
    convert_unit "" = ""
    ∧ convert_unit "  " = ""
    ∧ convert_unit " s " = "seconds"
    ∧ convert_unit "\x0Cs" = "seconds"
    ∧ convert_unit "1" = "ratio"
    ∧ convert_unit "requests/second" = "requests_per_second"
    ∧ convert_unit "count{packets}" = "count"
    ∧ convert_unit "ms" = "milliseconds"
    ∧ convert_unit "s" = "seconds"
    ∧ convert_unit "m" = "meters"
    ∧ convert_unit "kg" = "kilograms"
    ∧ convert_unit "g" = "grams"
    ∧ convert_unit "b" = "bytes"
    ∧ convert_unit "bytes" = "bytes"
    ∧ convert_unit "%" = "percent"
    ∧ convert_unit "By" = "By"
    ∧ ∀ u : String, trimStr u = u → u ≠ "" → '{' ∉ u.data → u ≠ "1" →
        '/' ∉ u.data →
        u ∉ (["ms", "s", "m", "kg", "g", "b", "bytes", "%"] : List String) →
        convert_unit u = u := by
  refine ⟨rfl, by decide, by decide, rfl, by decide, rfl, by decide, rfl,
    by decide, rfl, by decide, rfl, by decide, rfl, by decide, rfl, ?_⟩
  intro u htrim hne hbra h1 hsl htab
  have hdata : trimChars u.data = u.data := congrArg String.data htrim
  have hni : u.data ≠ [] := fun hh => hne (String.ext hh)
  simp only [convert_unit, hdata]
  rw [if_neg (by simpa [List.isEmpty_iff] using hni)]
  have hwb : withoutBrackets u.data = u.data := by
    unfold withoutBrackets
    rw [findCharIdx_eq_none u.data hbra]
  rw [hwb]
  simp only [List.mem_cons, List.mem_singleton, not_or] at htab
  obtain ⟨t1, t2, t3, t4, t5, t6, t7, t8, -⟩ := htab
  rw [if_neg (fun hh => h1 (String.ext hh))]
  rw [if_neg (by simpa using hsl)]
  rw [if_neg (fun hh => t1 (String.ext hh))]
  rw [if_neg (fun hh => t2 (String.ext hh))]
  rw [if_neg (fun hh => t3 (String.ext hh))]
  rw [if_neg (fun hh => t4 (String.ext hh))]
  rw [if_neg (fun hh => t5 (String.ext hh))]
  rw [if_neg (fun hh => (hh.elim (fun h6 => t6 (String.ext h6))
    (fun h7 => t7 (String.ext h7))))]
  rw [if_neg (fun hh => t8 (String.ext hh))]

/-- C6 witness: the general pass-through clause at `"unrecognized"`. -/
theorem c6_unit_conversion_witness : convert_unit "unrecognized" = "unrecognized" :=
  c6_unit_conversion.2.2.2.2.2.2.2.2.2.2.2.2.2.2.2.2 "unrecognized"
    (by decide) (by decide) (by decide) (by decide) (by decide) (by decide)

/-- C7: a metric whose data variant is an exponential histogram produces no
output at all: `get_prometheus_type_and_is_monotonic` returns `None`
(serialize.rs lines 511-513) and `serialize_metric` returns `Ok(())` before
writing anything (lines 525-527). In this model the returned string is the
exact text appended to the sink, so the sink is left unchanged, and since
the only error source of the Rust function is a sink write, no error can
occur. -/
theorem c7_exponential_histogram_skipped {F B : Type} (renderF : F → String)
    (renderB : B → String) (m : Metric F B) (s : Scope)
    (h : isExpHistogram m.data = true) :
    serialize_metric renderF renderB m s = "" := by
  obtain ⟨name, desc, unit, data⟩ := m
  cases data <;> rename_i d <;> cases d <;>
    first
      | rfl
      | simp [isExpHistogram] at h

/-- C7 witness. -/
theorem c7_exponential_histogram_skipped_witness :
    serialize_metric (fun _ : Unit => "") (fun _ : Unit => "")
      ⟨"m", "d", "s", .f64 .exponentialHistogram⟩ ⟨"sc", none, none, []⟩ = "" :=
  c7_exponential_histogram_skipped _ _ _ _ rfl

/-- C9 counterexample: `write_help_comment` (serialize.rs lines 347-356)
writes the description verbatim; a description containing a newline is NOT
escaped as the claim (and the spec) require. -/
theorem c9_description_unescaped :
    write_help_comment "m" "a\nb" = "# HELP m a\nb\n"
    ∧ write_help_comment "m" "a\nb"
        ≠ "# HELP m " ++ specEscapedDescription "a\nb" ++ "\n" :=
  ⟨by decide, by decide⟩

/-- C9 as amended: a `# HELP <name> <description>` line is written if and
only if the description is non-empty, and the description is written
verbatim, with no escaping of backslash, newline, tab or carriage return. -/
theorem c9_help_iff_nonempty_verbatim (name d : String) :
    (d = "" → write_help_comment name d = "")
    ∧ (d ≠ "" → write_help_comment name d = "# HELP " ++ name ++ " " ++ d ++ "\n") := by
  constructor
  · intro h
    subst h
    rfl
  · intro h
    unfold write_help_comment
    rw [if_pos (by simp [h])]

/-- C9 witness. -/
theorem c9_help_iff_nonempty_verbatim_witness :
    write_help_comment "m" "desc" = "# HELP " ++ "m" ++ " " ++ "desc" ++ "\n" :=
  (c9_help_iff_nonempty_verbatim "m" "desc").2 (by decide)

/-- C2 counterexample: attribute keys `a-b` (value `z`) and `a.b` (value `a`)
both sanitize to `a_b`. The code sorts the collected VALUES lexicographically
(serialize.rs line 322) before joining with `;`, emitting `a;z` — not `z;a`,
the concatenation in the order of the original attribute keys (both in input
order and sorted by original key, `a-b` < `a.b`). -/
theorem c2_values_sorted_not_key_ordered :
    write_attributes_as_labels [("a-b", "z"), ("a.b", "a")]
      = ("a_b=" ++ escape_label_value "a;z", true)
    ∧ specCollidedValue [("a-b", "z"), ("a.b", "a")] "a_b" = escape_label_value "z;a"
    ∧ escape_label_value "a;z" ≠ escape_label_value "z;a" := by
  refine ⟨by decide, by decide, by decide⟩

/-- C10 counterexample: a data point with no attributes whose scope has ONLY
a reserved-key attribute (`name`) makes `write_metric_labels` open the brace
block (because `scope.attributes().next().is_some()`), while
`write_scope_labels` then writes nothing (the attribute is skipped,
serialize.rs line 407) — yielding `{}`, not a block opening `{,`. -/
theorem c10_reserved_scope_attribute_empty_block :
    write_metric_labels [] ⟨"", none, none, [("name", "x")]⟩ false = "{}"
    ∧ hasScopeAttrs ⟨"", none, none, [("name", "x")]⟩ = true
    ∧ ("{}" : String).data.take 2 ≠ ['{', ','] := by
  refine ⟨by decide, by decide, by decide⟩

/-- C3 counterexample: `serialize_histogram` (serialize.rs lines 712-765)
writes the `_count` line FIRST, then `_sum`, then the buckets — the claim
says `_sum` comes first. Evaluated on a one-point histogram (count 3, sum 3,
bounds `[1,2]`, bucket counts `[1,2,3]`, empty scope), the output's first
six characters are `m_coun`, not `m_sum `. -/
theorem c3_count_line_first :
    serialize_histogram natDecimal natDecimal "m"
        ⟨[⟨[], 3, 3, [1, 2], [1, 2, 3]⟩]⟩ ⟨"", none, none, []⟩
      = "m_count 3\nm_sum 3\nm_bucket\x7ble=\"1\"\x7d 1\nm_bucket\x7ble=\"2\"\x7d 3\n"
        ++ "m_bucket\x7ble=\"+Inf\"\x7d 3\n"
    ∧ (serialize_histogram natDecimal natDecimal "m"
        ⟨[⟨[], 3, 3, [1, 2], [1, 2, 3]⟩]⟩ ⟨"", none, none, []⟩).data.take 6
      ≠ ("m_sum " : String).data := by
  refine ⟨by decide, by decide⟩

/-- C2 as amended: for every data point and every sanitized label name, the
grouping map collects ALL values of the attribute keys sanitizing to that
name, in attribute order (none dropped); exactly one entry for the name
exists; and the emitted value is the escaped `;`-join of the values sorted
lexicographically BY VALUE (a permutation of the collected values), not in
original-key order. -/
theorem c2_collision_merge (attrs : List (String × String)) (k : String)
    (h : (attrs.filter (fun a => sanitize_name a.1 == k)).map Prod.snd ≠ []) :
    lookupGroup (groupBySanitized attrs) k
        = (attrs.filter (fun a => sanitize_name a.1 == k)).map Prod.snd
    ∧ (k, (attrs.filter (fun a => sanitize_name a.1 == k)).map Prod.snd)
        ∈ groupBySanitized attrs
    ∧ List.count k (groupKeys (groupBySanitized attrs)) = 1
    ∧ labelValueText ((attrs.filter (fun a => sanitize_name a.1 == k)).map Prod.snd)
        = escape_label_value (joinSep ";"
            (sortStrings ((attrs.filter (fun a => sanitize_name a.1 == k)).map Prod.snd)))
    ∧ (sortStrings ((attrs.filter (fun a => sanitize_name a.1 == k)).map Prod.snd)).Perm
        ((attrs.filter (fun a => sanitize_name a.1 == k)).map Prod.snd)
    ∧ List.Chain' (fun a b => strLeB a b = true)
        (sortStrings ((attrs.filter (fun a => sanitize_name a.1 == k)).map Prod.snd)) := by
  have hl := groupBySanitized_lookup attrs k
  refine ⟨hl, mem_of_lookupGroup hl h, ?_, labelValueText_eq _ h, sortStrings_perm _,
    sortStrings_chain _⟩
  exact List.count_eq_one_of_mem (groupBySanitized_nodup attrs)
    (lookupGroup_ne_nil_mem (by rw [hl]; exact h))

/-- C2 witness: the collision of `a-b` and `a.b` under the sanitized name
`a_b`. -/
theorem c2_collision_merge_witness :
    lookupGroup (groupBySanitized [("a-b", "z"), ("a.b", "a")]) "a_b"
      = (([("a-b", "z"), ("a.b", "a")].filter
          (fun a => sanitize_name a.1 == "a_b")).map Prod.snd) :=
  (c2_collision_merge [("a-b", "z"), ("a.b", "a")] "a_b" (by decide)).1

theorem sum_classifier_eq (t : Temporality) (mono : Bool) :
    ((if (t == Temporality.cumulative && mono) = true
        then some (("counter" : String), true) else some (("gauge" : String), false))
      = some (("counter" : String), true) ↔ (t = Temporality.cumulative ∧ mono = true))
    ∧ (¬(t = Temporality.cumulative ∧ mono = true) →
        (if (t == Temporality.cumulative && mono) = true
          then some (("counter" : String), true) else some (("gauge" : String), false))
        = some (("gauge" : String), false)) := by
  cases t <;> cases mono <;> exact ⟨by decide, by decide⟩

/-- C8: every Gauge variant renders as `gauge`; every fixed-bucket Histogram
as `histogram`; a Sum renders as `counter` (with the monotonic flag set) if
and only if its temporality is Cumulative and it is monotonic, and as
`gauge` otherwise — for all three numeric flavours alike
(serialize.rs lines 478-515). -/
theorem c8_type_classification {F B : Type} (d : AggregatedMetrics F B) :
    (isGaugeVariant d = true →
      get_prometheus_type_and_is_monotonic d = some ("gauge", false))
    ∧ (isHistVariant d = true →
      get_prometheus_type_and_is_monotonic d = some ("histogram", false))
    ∧ ∀ t mono, sumParams d = some (t, mono) →
        ((get_prometheus_type_and_is_monotonic d = some ("counter", true)
          ↔ (t = Temporality.cumulative ∧ mono = true))
        ∧ (¬(t = Temporality.cumulative ∧ mono = true) →
            get_prometheus_type_and_is_monotonic d = some ("gauge", false))) := by
  cases d with
  | f64 md =>
    cases md with
    | gauge g =>
      exact ⟨fun _ => rfl, fun hh => by simp [isHistVariant] at hh,
        fun t mono hh => by simp [sumParams] at hh⟩
    | histogram hg =>
      exact ⟨fun hh => by simp [isGaugeVariant] at hh, fun _ => rfl,
        fun t mono hh => by simp [sumParams] at hh⟩
    | exponentialHistogram =>
      exact ⟨fun hh => by simp [isGaugeVariant] at hh,
        fun hh => by simp [isHistVariant] at hh,
        fun t mono hh => by simp [sumParams] at hh⟩
    | sum sd =>
      refine ⟨fun hh => by simp [isGaugeVariant] at hh,
        fun hh => by simp [isHistVariant] at hh, ?_⟩
      intro t mono hh
      simp only [sumParams, Option.some.injEq, Prod.mk.injEq] at hh
      obtain ⟨ht, hm⟩ := hh
      subst ht
      subst hm
      exact sum_classifier_eq sd.temporality sd.is_monotonic
  | u64 md =>
    cases md with
    | gauge g =>
      exact ⟨fun _ => rfl, fun hh => by simp [isHistVariant] at hh,
        fun t mono hh => by simp [sumParams] at hh⟩
    | histogram hg =>
      exact ⟨fun hh => by simp [isGaugeVariant] at hh, fun _ => rfl,
        fun t mono hh => by simp [sumParams] at hh⟩
    | exponentialHistogram =>
      exact ⟨fun hh => by simp [isGaugeVariant] at hh,
        fun hh => by simp [isHistVariant] at hh,
        fun t mono hh => by simp [sumParams] at hh⟩
    | sum sd =>
      refine ⟨fun hh => by simp [isGaugeVariant] at hh,
        fun hh => by simp [isHistVariant] at hh, ?_⟩
      intro t mono hh
      simp only [sumParams, Option.some.injEq, Prod.mk.injEq] at hh
      obtain ⟨ht, hm⟩ := hh
      subst ht
      subst hm
      exact sum_classifier_eq sd.temporality sd.is_monotonic
  | i64 md =>
    cases md with
    | gauge g =>
      exact ⟨fun _ => rfl, fun hh => by simp [isHistVariant] at hh,
        fun t mono hh => by simp [sumParams] at hh⟩
    | histogram hg =>
      exact ⟨fun hh => by simp [isGaugeVariant] at hh, fun _ => rfl,
        fun t mono hh => by simp [sumParams] at hh⟩
    | exponentialHistogram =>
      exact ⟨fun hh => by simp [isGaugeVariant] at hh,
        fun hh => by simp [isHistVariant] at hh,
        fun t mono hh => by simp [sumParams] at hh⟩
    | sum sd =>
      refine ⟨fun hh => by simp [isGaugeVariant] at hh,
        fun hh => by simp [isHistVariant] at hh, ?_⟩
      intro t mono hh
      simp only [sumParams, Option.some.injEq, Prod.mk.injEq] at hh
      obtain ⟨ht, hm⟩ := hh
      subst ht
      subst hm
      exact sum_classifier_eq sd.temporality sd.is_monotonic

/-- C8 witness: a cumulative monotonic u64 Sum classifies as a counter. -/
theorem c8_type_classification_witness :
    get_prometheus_type_and_is_monotonic
        (.u64 (.sum ⟨Temporality.cumulative, true, []⟩) : AggregatedMetrics Unit Unit)
      = some ("counter", true) :=
  ((c8_type_classification
    (.u64 (.sum ⟨Temporality.cumulative, true, []⟩) : AggregatedMetrics Unit Unit)).2.2
      Temporality.cumulative true rfl).1.mpr ⟨rfl, rfl⟩

/-- C10 as amended: for a data point with no attributes whose scope
contributes at least one label — non-empty name, non-empty version,
non-empty schema URL, or an attribute whose key is NOT one of the reserved
`name`/`version`/`schema_url` (reserved-key attributes are skipped and
contribute nothing) — the label block opens with `{` immediately followed by
a comma, because scope labels are written with a leading comma and no
attribute label precedes them. All gauge/counter sample lines and histogram
`_sum`/`_count` lines write their labels through `write_metric_labels`. -/
theorem c10_scope_labels_leading_comma (s : Scope)
    (h : hasScopeName s = true ∨ hasScopeVersion s = true ∨ hasScopeSchema s = true
      ∨ ∃ kv ∈ s.attributes, ¬(kv.1 = "name" ∨ kv.1 = "version" ∨ kv.1 = "schema_url")) :
    ∃ r, write_metric_labels [] s false = "\x7b," ++ r := by
  obtain ⟨r, hr⟩ := write_scope_labels_comma s h
  have hflags : (hasScopeName s || hasScopeVersion s || hasScopeSchema s
      || hasScopeAttrs s) = true := by
    rcases h with hh | hh | hh | ⟨kv, hm, _⟩
    · simp [hh]
    · simp [hh]
    · simp [hh]
    · have ha : hasScopeAttrs s = true := by
        unfold hasScopeAttrs
        cases hattr : s.attributes with
        | nil => rw [hattr] at hm; exact absurd hm (List.not_mem_nil kv)
        | cons a t => simp
      simp [ha]
  have h1 : write_metric_labels [] s false = "\x7b" ++ write_scope_labels s ++ "\x7d" := by
    unfold write_metric_labels
    rw [if_pos (by
      simp only [List.isEmpty_nil, Bool.not_true, Bool.false_or, Bool.or_false]
      exact hflags)]
    rw [show (write_attributes_as_labels ([] : List (String × String))).2 = false from rfl]
    rw [Bool.false_or]
    rw [if_pos hflags]
    rw [show (write_attributes_as_labels ([] : List (String × String))).1 = "" from rfl]
    rw [strApp_empty]
  rw [h1, hr]
  refine ⟨r ++ "\x7d", ?_⟩
  apply String.ext
  rw [show ("\x7b," : String) = "\x7b" ++ "," from by decide]
  simp [String.data_append, List.append_assoc]

/-- C10 witness: a scope with only a non-empty name. -/
theorem c10_scope_labels_leading_comma_witness :
    ∃ r, write_metric_labels [] ⟨"test", none, none, []⟩ false = "\x7b," ++ r :=
  c10_scope_labels_leading_comma ⟨"test", none, none, []⟩ (Or.inl (by decide))

/-- C4: the bucket lines of a histogram data point are exactly one line per
explicit boundary, emitted in the order of the (ascending) bounds, with
cumulative counts that are non-decreasing (given that the bucket counts do
not overflow `u64`), and the final `+Inf` line carries the data point's
total count (serialize.rs lines 737-764). -/
theorem c4_bucket_invariant {V B : Type} (r : B → B → Prop) (rB : B → String)
    (name : String) (p : HistogramPoint V B) (s : Scope)
    (hlen : p.bounds.length ≤ p.bucket_counts.length)
    (hsum : (p.bucket_counts.take p.bounds.length).sum < U64MOD)
    (hasc : List.Chain' r p.bounds) :
    histBucketLines rB name p s
        = concatAll ((cumulPairs 0 (p.bounds.zip p.bucket_counts)).map
            (bucketLineOf rB name p.attributes s))
    ∧ (cumulPairs 0 (p.bounds.zip p.bucket_counts)).map Prod.fst = p.bounds
    ∧ (cumulPairs 0 (p.bounds.zip p.bucket_counts)).length = p.bounds.length
    ∧ List.Chain' r ((cumulPairs 0 (p.bounds.zip p.bucket_counts)).map Prod.fst)
    ∧ List.Chain' (· ≤ ·) ((cumulPairs 0 (p.bounds.zip p.bucket_counts)).map Prod.snd)
    ∧ histInfLine name p s
        = name ++ "_bucket" ++ write_bucket_labels p.attributes s "+Inf" ++ " "
          ++ natDecimal p.count ++ "\n" := by
  have hfst : (cumulPairs 0 (p.bounds.zip p.bucket_counts)).map Prod.fst = p.bounds := by
    rw [cumulPairs_map_fst]
    exact List.map_fst_zip _ _ hlen
  refine ⟨histBucketLinesAux_eq rB name p.attributes s _ 0, hfst, ?_, ?_, ?_, rfl⟩
  · rw [cumulPairs_length, List.length_zip]
    exact Nat.min_eq_left hlen
  · rw [hfst]
    exact hasc
  · refine (cumulPairs_chain _ 0 ?_).1
    rw [zip_map_snd_take]
    simpa using hsum

/-- C4 witness: boundaries `[1, 2]`, bucket counts `[1, 2, 3]`. -/
theorem c4_bucket_invariant_witness :
    (cumulPairs 0 (([1, 2] : List Nat).zip ([1, 2, 3] : List Nat))).map Prod.fst = [1, 2]
    ∧ List.Chain' (· ≤ ·)
        ((cumulPairs 0 (([1, 2] : List Nat).zip ([1, 2, 3] : List Nat))).map Prod.snd) := by
  have h := c4_bucket_invariant (· ≤ · : Nat → Nat → Prop) natDecimal "m"
    (⟨[], 3, 3, [1, 2], [1, 2, 3]⟩ : HistogramPoint Nat Nat) ⟨"", none, none, []⟩
    (by decide) (by decide)
    (List.chain'_cons.mpr ⟨by norm_num, List.chain'_singleton 2⟩)
  exact ⟨h.2.1, h.2.2.2.2.1⟩

/-- C3 as amended: for every histogram data point the emitter writes the
`<name>_count` line FIRST, then the `<name>_sum` line, then the `_bucket`
lines (explicit bounds followed by `+Inf`). Splitting the emitted text at
newlines yields: a first line starting `<name>_count`, a second starting
`<name>_sum`, a non-empty run of lines starting `<name>_bucket`, and the
empty chunk after the final newline. -/
theorem c3_line_order {V B : Type} (rV : V → String) (rB : B → String)
    (name : String) (p : HistogramPoint V B) (s : Scope)
    (hname : allNotNL name.data = true)
    (hsum : allNotNL (rV p.sum).data = true) :
    ∃ cl sl bls,
      splitNL (serializeHistPoint rV rB name p s).data = cl :: sl :: (bls ++ [[]])
      ∧ leadsWith (name ++ "_count").data cl
      ∧ leadsWith (name ++ "_sum").data sl
      ∧ bls ≠ []
      ∧ (∀ x ∈ bls, leadsWith (name ++ "_bucket").data x) := by
  obtain ⟨bls0, hb1, hb2⟩ := splitNL_histBucketLinesAux rB name p.attributes s hname
    (p.bounds.zip p.bucket_counts) 0
    ((name ++ "_bucket" ++ write_bucket_labels p.attributes s "+Inf" ++ " "
      ++ natDecimal p.count).data ++ '\n' :: [])
  have hcount : allNotNL (name ++ "_count" ++ write_metric_labels p.attributes s false
      ++ " " ++ natDecimal p.count).data = true :=
    allNotNL_strApp (allNotNL_strApp (allNotNL_strApp (allNotNL_strApp hname (by decide))
      (write_metric_labels_notNL p.attributes s false)) (by decide)) (natDecimal_notNL _)
  have hsumpre : allNotNL (name ++ "_sum" ++ write_metric_labels p.attributes s false
      ++ " " ++ rV p.sum).data = true :=
    allNotNL_strApp (allNotNL_strApp (allNotNL_strApp (allNotNL_strApp hname (by decide))
      (write_metric_labels_notNL p.attributes s false)) (by decide)) hsum
  have hinf : allNotNL (name ++ "_bucket" ++ write_bucket_labels p.attributes s "+Inf"
      ++ " " ++ natDecimal p.count).data = true :=
    allNotNL_strApp (allNotNL_strApp (allNotNL_strApp (allNotNL_strApp hname (by decide))
      (write_bucket_labels_notNL p.attributes s "+Inf")) (by decide)) (natDecimal_notNL _)
  have hshape : (serializeHistPoint rV rB name p s).data
      = (name ++ "_count" ++ write_metric_labels p.attributes s false ++ " "
          ++ natDecimal p.count).data
        ++ '\n' :: ((name ++ "_sum" ++ write_metric_labels p.attributes s false ++ " "
          ++ rV p.sum).data
        ++ '\n' :: ((histBucketLinesAux rB name p.attributes s 0
            (p.bounds.zip p.bucket_counts)).data
          ++ ((name ++ "_bucket" ++ write_bucket_labels p.attributes s "+Inf" ++ " "
            ++ natDecimal p.count).data ++ '\n' :: []))) := by
    simp only [serializeHistPoint, histCountLine, histSumLine, histBucketLines,
      histInfLine, String.data_append]
    simp [List.append_assoc, List.singleton_append]
  refine ⟨(name ++ "_count" ++ write_metric_labels p.attributes s false ++ " "
      ++ natDecimal p.count).data,
    (name ++ "_sum" ++ write_metric_labels p.attributes s false ++ " "
      ++ rV p.sum).data,
    bls0 ++ [(name ++ "_bucket" ++ write_bucket_labels p.attributes s "+Inf" ++ " "
      ++ natDecimal p.count).data], ?_, ?_, ?_, ?_, ?_⟩
  · rw [hshape, splitNL_append _ _ hcount, splitNL_append _ _ hsumpre, hb1,
      splitNL_append _ _ hinf]
    simp [splitNL, List.append_assoc]
  · rw [show name ++ "_count" ++ write_metric_labels p.attributes s false ++ " "
        ++ natDecimal p.count
      = (name ++ "_count") ++ (write_metric_labels p.attributes s false
        ++ (" " ++ natDecimal p.count)) from by simp only [strApp_assoc]]
    exact leadsWith_data _ _
  · rw [show name ++ "_sum" ++ write_metric_labels p.attributes s false ++ " "
        ++ rV p.sum
      = (name ++ "_sum") ++ (write_metric_labels p.attributes s false
        ++ (" " ++ rV p.sum)) from by simp only [strApp_assoc]]
    exact leadsWith_data _ _
  · simp
  · intro x hx
    rcases List.mem_append.mp hx with hx1 | hx2
    · exact hb2 x hx1
    · rw [List.mem_singleton] at hx2
      subst hx2
      rw [show name ++ "_bucket" ++ write_bucket_labels p.attributes s "+Inf" ++ " "
          ++ natDecimal p.count
        = (name ++ "_bucket") ++ (write_bucket_labels p.attributes s "+Inf"
          ++ (" " ++ natDecimal p.count)) from by simp only [strApp_assoc]]
      exact leadsWith_data _ _

/-- C3 witness: the amended line order on a concrete one-point histogram. -/
theorem c3_line_order_witness :
    ∃ cl sl bls,
      splitNL (serializeHistPoint natDecimal natDecimal "m"
          (⟨[], 3, 3, [1, 2], [1, 2, 3]⟩ : HistogramPoint Nat Nat)
          ⟨"", none, none, []⟩).data
        = cl :: sl :: (bls ++ [[]])
      ∧ leadsWith (("m" : String) ++ "_count").data cl
      ∧ leadsWith (("m" : String) ++ "_sum").data sl
      ∧ bls ≠ []
      ∧ (∀ x ∈ bls, leadsWith (("m" : String) ++ "_bucket").data x) :=
  c3_line_order natDecimal natDecimal "m"
    (⟨[], 3, 3, [1, 2], [1, 2, 3]⟩ : HistogramPoint Nat Nat)
    ⟨"", none, none, []⟩ (by decide) (by decide)

end PromText
